import Mathlib

/-!
Verification of the blackjack client/server repository.

Shallow embedding conventions:
- A byte buffer is a `List Nat` whose elements are < 256; Python `bytes`
  values are translated byte for byte.
- Python strings crossing the wire are represented by their UTF-8 byte
  encoding (a `List Nat`), since the codec manipulates only those bytes
  (`_pack_fixed_name` / `_unpack_fixed_name` in src/common/protocol.py).
- Python `raise ProtocolError` is modelled by `Except.error`; a successful
  return by `Except.ok`.
- The suit strings "H","D","C","S" (the only values `Card.suit` takes, see
  src/common/cards.py) are modelled by the inductive type `Suit`.
- The two valid decision strings "Hittt"/"Stand" are modelled at the wire
  level by their ASCII byte lists and at the game-engine level by the
  inductive type `Decision` (the engine receives decisions only after
  `parse_payload_client` has validated them).
-/

namespace Blackjack

/-- The four suit symbols of src/common/cards.py (`SUITS = ["H","D","C","S"]`). -/
inductive Suit where
  | H
  | D
  | C
  | S
deriving DecidableEq, Repr

/-- src/common/cards.py `Card`: rank 1..13, suit one of H,D,C,S. -/
structure Card where
  rank : Nat
  suit : Suit
deriving DecidableEq, Repr

-- Constants from src/common/constants.py.

def MAGIC_COOKIE : Nat := 0xabcddcba

def TYPE_OFFER : Nat := 0x2

def TYPE_REQUEST : Nat := 0x3

def TYPE_PAYLOAD : Nat := 0x4

def NAME_LEN : Nat := 32

def DECISION_LEN : Nat := 5

def OFFER_LEN : Nat := 4 + 1 + 2 + NAME_LEN

def REQUEST_LEN : Nat := 4 + 1 + 1 + NAME_LEN

def PAYLOAD_CLIENT_LEN : Nat := 4 + 1 + DECISION_LEN

def PAYLOAD_SERVER_LEN : Nat := 4 + 1 + 1 + 3

def RESULT_NOT_OVER : Nat := 0x0

def RESULT_TIE : Nat := 0x1

def RESULT_LOSS : Nat := 0x2

def RESULT_WIN : Nat := 0x3

def VALID_RESULTS : List Nat := [RESULT_NOT_OVER, RESULT_TIE, RESULT_LOSS, RESULT_WIN]

/-- ASCII bytes of the decision token "Hittt". -/
def HITTT_BYTES : List Nat := [72, 105, 116, 116, 116]

/-- ASCII bytes of the decision token "Stand". -/
def STAND_BYTES : List Nat := [83, 116, 97, 110, 100]

/-- constants.py `SUIT_TO_CODE = {"H": 0, "D": 1, "C": 2, "S": 3}`. -/
def SUIT_TO_CODE : Suit → Nat
  | .H => 0
  | .D => 1
  | .C => 2
  | .S => 3

/-- constants.py `CODE_TO_SUIT` (inverse dict lookup; `none` = key error). -/
def CODE_TO_SUIT : Nat → Option Suit
  | 0 => some .H
  | 1 => some .D
  | 2 => some .C
  | 3 => some .S
  | _ => none

-- Big-endian packing helpers (struct.pack "!I", "!H", "!B").

/-- Big-endian value of a byte list, as computed by struct.unpack. -/
def beToNat (l : List Nat) : Nat := l.foldl (fun a b => a * 256 + b) 0

/-- struct.pack "!H": two big-endian bytes. -/
def u16_be (n : Nat) : List Nat := [n / 256 % 256, n % 256]

/-- The four bytes of struct.pack "!I" applied to `MAGIC_COOKIE`. -/
def magicBytes : List Nat := [0xab, 0xcd, 0xdc, 0xba]

/-- protocol.py `_pack_fixed_name`: truncate the encoded name to `NAME_LEN`
bytes and right-pad with zero bytes. -/
def pack_fixed_name (raw : List Nat) : List Nat :=
  (raw.take NAME_LEN) ++ List.replicate (NAME_LEN - (raw.take NAME_LEN).length) 0

/-- protocol.py `_unpack_fixed_name`: the bytes before the first zero byte
(`raw.split(b"\x00", 1)[0]`). -/
def unpack_fixed_name (raw : List Nat) : List Nat :=
  raw.takeWhile (fun b => b != 0)

-- Parsed-message records (protocol.py dataclasses).

/-- protocol.py `Offer`. -/
structure Offer where
  tcp_port : Nat
  server_name : List Nat
deriving DecidableEq, Repr

/-- protocol.py `Request`. -/
structure Request where
  rounds : Nat
  team_name : List Nat
deriving DecidableEq, Repr

/-- protocol.py `PayloadClient`. -/
structure PayloadClient where
  decision : List Nat
deriving DecidableEq, Repr

/-- protocol.py `PayloadServer`. -/
structure PayloadServer where
  result : Nat
  rank : Nat
  suit : Suit
deriving DecidableEq, Repr

-- Wire codec (protocol.py build_* / parse_*).

/-- protocol.py `build_offer`: cookie(4) type(1) tcp_port(2) name(32). -/
def build_offer (tcp_port : Nat) (server_name : List Nat) : Except String (List Nat) :=
  if tcp_port ≤ 65535 then
    Except.ok (magicBytes ++ [TYPE_OFFER] ++ u16_be tcp_port ++ pack_fixed_name server_name)
  else
    Except.error "tcp_port must be uint16"

/-- protocol.py `parse_offer`. -/
def parse_offer (data : List Nat) : Except String Offer :=
  if data.length = OFFER_LEN then
    match data with
    | a :: b :: c :: d :: t :: p1 :: p2 :: name_raw =>
      if beToNat [a, b, c, d] = MAGIC_COOKIE then
        if t = TYPE_OFFER then
          Except.ok (Offer.mk (beToNat [p1, p2]) (unpack_fixed_name name_raw))
        else Except.error "Bad message type"
      else Except.error "Bad magic cookie"
    | _ => Except.error "Invalid offer length"
  else Except.error "Invalid offer length"

/-- protocol.py `build_request`: cookie(4) type(1) rounds(1) name(32). -/
def build_request (rounds : Nat) (team_name : List Nat) : Except String (List Nat) :=
  if rounds ≤ 255 then
    Except.ok (magicBytes ++ [TYPE_REQUEST] ++ [rounds] ++ pack_fixed_name team_name)
  else
    Except.error "rounds must be uint8"

/-- protocol.py `parse_request`. -/
def parse_request (data : List Nat) : Except String Request :=
  if data.length = REQUEST_LEN then
    match data with
    | a :: b :: c :: d :: t :: r :: name_raw =>
      if beToNat [a, b, c, d] = MAGIC_COOKIE then
        if t = TYPE_REQUEST then
          Except.ok (Request.mk r (unpack_fixed_name name_raw))
        else Except.error "Bad message type"
      else Except.error "Bad magic cookie"
    | _ => Except.error "Invalid request length"
  else Except.error "Invalid request length"

/-- protocol.py `build_payload_client`: cookie(4) type(1) decision(5). -/
def build_payload_client (decision : List Nat) : Except String (List Nat) :=
  if decision = HITTT_BYTES ∨ decision = STAND_BYTES then
    if decision.length = DECISION_LEN then
      Except.ok (magicBytes ++ [TYPE_PAYLOAD] ++ decision)
    else Except.error "decision must be exactly 5 bytes"
  else Except.error "decision must be Hittt or Stand"

/-- protocol.py `parse_payload_client`. -/
def parse_payload_client (data : List Nat) : Except String PayloadClient :=
  if data.length = PAYLOAD_CLIENT_LEN then
    match data with
    | a :: b :: c :: d :: t :: decision_raw =>
      if beToNat [a, b, c, d] = MAGIC_COOKIE then
        if t = TYPE_PAYLOAD then
          if decision_raw = HITTT_BYTES ∨ decision_raw = STAND_BYTES then
            Except.ok (PayloadClient.mk decision_raw)
          else Except.error "Invalid decision in payload"
        else Except.error "Bad message type"
      else Except.error "Bad magic cookie"
    | _ => Except.error "Invalid client payload length"
  else Except.error "Invalid client payload length"

/-- protocol.py `build_payload_server`: cookie(4) type(1) result(1) rank(2) suit(1).
The suit argument ranges over `Suit`, so the Python membership test
`suit in SUIT_TO_CODE` always succeeds here. -/
def build_payload_server (result : Nat) (rank : Nat) (suit : Suit) : Except String (List Nat) :=
  if result ∈ VALID_RESULTS then
    if 1 ≤ rank ∧ rank ≤ 13 then
      Except.ok (magicBytes ++ [TYPE_PAYLOAD] ++ [result] ++ u16_be rank ++ [SUIT_TO_CODE suit])
    else Except.error "rank must be 1..13"
  else Except.error "Invalid result code"

/-- protocol.py `parse_payload_server`. -/
def parse_payload_server (data : List Nat) : Except String PayloadServer :=
  if data.length = PAYLOAD_SERVER_LEN then
    match data with
    | [a, b, c, d, t, res, r1, r2, sc] =>
      if beToNat [a, b, c, d] = MAGIC_COOKIE then
        if t = TYPE_PAYLOAD then
          if res ∈ VALID_RESULTS then
            if 1 ≤ beToNat [r1, r2] ∧ beToNat [r1, r2] ≤ 13 then
              match CODE_TO_SUIT sc with
              | some s => Except.ok (PayloadServer.mk res (beToNat [r1, r2]) s)
              | none => Except.error "Invalid suit code in payload"
            else Except.error "Invalid rank in payload"
          else Except.error "Invalid result code"
        else Except.error "Bad message type"
      else Except.error "Bad magic cookie"
    | _ => Except.error "Invalid server payload length"
  else Except.error "Invalid server payload length"

-- Game rules (src/common/rules.py).

/-- rules.py `card_value`: rank 1 scores 11, ranks 2..10 score face value,
everything else scores 10. -/
def card_value (card : Card) : Nat :=
  if card.rank = 1 then 11
  else if 2 ≤ card.rank ∧ card.rank ≤ 10 then card.rank
  else 10

/-- rules.py `hand_value`: plain sum of card values. -/
def hand_value (hand : List Card) : Nat :=
  (hand.map card_value).sum

/-- rules.py `is_bust`. -/
def is_bust (hand : List Card) : Bool :=
  hand_value hand > 21

/-- rules.py `dealer_should_hit`. -/
def dealer_should_hit (hand : List Card) : Bool :=
  hand_value hand < 17

-- Round engine (src/server/session.py play_one_round).
--
-- The socket is abstracted away: the incoming stream of (already parsed and
-- validated) client decisions is a `List Decision`, the deck is the list of
-- cards `deck.draw()` will return in order, and the function returns the
-- sequence of Card/Result messages the server sends plus the final result
-- code.  `none` models the blocking situations the pure embedding cannot
-- enter (waiting for a decision that never comes, or drawing from an
-- exhausted card list; the real deck reshuffles and so never exhausts).

/-- A validated client decision, as produced by `parse_payload_client`
("Hittt" or "Stand"). -/
inductive Decision where
  | hittt
  | stand
deriving DecidableEq, Repr

/-- One server-to-client Card/Result message as handed to
`build_payload_server` in session.py: a result code and the card whose
rank/suit fill the card field. -/
structure Msg where
  result : Nat
  card : Card
deriving DecidableEq, Repr

/-- The player-decision loop of session.py `play_one_round` (lines 61-82).
Arguments: current player hand, remaining decisions, remaining deck, last
card sent.  Returns the messages emitted during the loop and either `none`
(round ended with a player bust, result LOSS) or the stand continuation
(final player hand, remaining deck, last card sent). -/
def playerLoop : List Card → List Decision → List Card → Card →
    Option (List Msg × Option (List Card × List Card × Card))
  | _, [], _, _ => none
  | player, .stand :: _, deck, lastSent => some ([], some (player, deck, lastSent))
  | _, .hittt :: _, [], _ => none
  | player, .hittt :: ds, c :: rest, _ =>
    if is_bust (player ++ [c]) then
      some ([Msg.mk RESULT_NOT_OVER c, Msg.mk RESULT_LOSS c], none)
    else
      (playerLoop (player ++ [c]) ds rest c).map
        (fun r => (Msg.mk RESULT_NOT_OVER c :: r.1, r.2))

/-- The dealer draw loop of session.py `play_one_round` (lines 87-90):
while `dealer_should_hit`, draw, append, send as NotOver.  Returns the final
dealer hand, the emitted messages, and the remaining deck. -/
def dealerLoop : List Card → List Card → Option (List Card × List Msg × List Card)
  | dealer, [] =>
    if dealer_should_hit dealer then none else some (dealer, [], [])
  | dealer, c :: rest =>
    if dealer_should_hit dealer then
      (dealerLoop (dealer ++ [c]) rest).map
        (fun r => (r.1, Msg.mk RESULT_NOT_OVER c :: r.2.1, r.2.2))
    else some (dealer, [], c :: rest)

/-- The result computation of session.py `play_one_round` (lines 95-100). -/
def round_result (player dealer : List Card) : Nat :=
  if is_bust dealer = true ∨ hand_value player > hand_value dealer then RESULT_WIN
  else if hand_value player < hand_value dealer then RESULT_LOSS
  else RESULT_TIE

/-- session.py `play_one_round`, as a pure function from the deck order and
the decision stream to (messages sent, final result code). -/
def play_one_round (deck : List Card) (decisions : List Decision) :
    Option (List Msg × Nat) :=
  match deck with
  | p1 :: p2 :: d1 :: d2 :: rest =>
    let initMsgs := [Msg.mk RESULT_NOT_OVER p1, Msg.mk RESULT_NOT_OVER p2,
                     Msg.mk RESULT_NOT_OVER d1]
    match playerLoop [p1, p2] decisions rest d1 with
    | none => none
    | some (pmsgs, none) => some (initMsgs ++ pmsgs, RESULT_LOSS)
    | some (pmsgs, some (player, deck2, _)) =>
      match dealerLoop [d1, d2] deck2 with
      | none => none
      | some (dealer, dmsgs, _) =>
        let result := round_result player dealer
        let lastSent := (dmsgs.getLastD (Msg.mk RESULT_NOT_OVER d2)).card
        some (initMsgs ++ pmsgs ++ (Msg.mk RESULT_NOT_OVER d2 :: dmsgs) ++
              [Msg.mk result lastSent], result)
  | _ => none

-- Client round driver (src/client/main.py, player-turn loop, lines 102-141).
--
-- Inputs: the client's view of its hand after the three initial reads, the
-- stream of decisions the external input collaborator will return, and the
-- stream of server Card/Result messages that `recv_server_payload` will
-- yield.  Output: the list of decisions actually sent to the server before
-- the driver leaves the player-turn loop (`none` models blocking on an
-- exhausted input or message stream).

/-- The client player-turn loop of src/client/main.py: before each prompt it
checks `is_bust(player)` and breaks without asking when the hand is bust;
otherwise it sends the collaborator's decision, and on "Hittt" reads one
message, appending it to the hand when the result is NotOver. -/
def clientPlayerTurn : List Card → List Decision → List Msg → Option (List Decision)
  | player, inputs, srv =>
    if is_bust player then some []
    else
      match inputs with
      | [] => none
      | .stand :: _ => some [.stand]
      | .hittt :: ds =>
        match srv with
        | [] => none
        | m :: ms =>
          if m.result = RESULT_NOT_OVER then
            (clientPlayerTurn (player ++ [m.card]) ds ms).map (fun l => .hittt :: l)
          else some [.hittt]

-- Spec-side restatement used by the refinement-style hand-value claim.

/-- The hand-value rule exactly as the specification words it: 11 if the
rank is 1, the rank itself if the rank is 2..10, 10 if the rank is 11..13
(and arbitrary 0 outside the card domain, where the spec says nothing). -/
def specCardScore (c : Card) : Nat :=
  if c.rank = 1 then 11
  else if 2 ≤ c.rank ∧ c.rank ≤ 10 then c.rank
  else if 11 ≤ c.rank ∧ c.rank ≤ 13 then 10
  else 0

-- Helper lemmas.

theorem card_value_ge_two (c : Card) : 2 ≤ card_value c := by
  unfold card_value
  split_ifs <;> omega

theorem hand_value_append (h : List Card) (c : Card) :
    hand_value (h ++ [c]) = hand_value h + card_value c := by
  simp [hand_value]

theorem unpack_append_replicate (name : List Nat) (k : Nat)
    (hz : ∀ b ∈ name, b ≠ 0) :
    unpack_fixed_name (name ++ List.replicate k 0) = name := by
  induction name with
  | nil =>
    cases k with
    | zero => rfl
    | succ n => simp [unpack_fixed_name, List.replicate_succ, List.takeWhile]
  | cons b bs ih =>
    have hb : (b != 0) = true := by
      simpa using hz b (by simp)
    have hbs : ∀ x ∈ bs, x ≠ 0 := fun x hx => hz x (by simp [hx])
    simp only [unpack_fixed_name] at ih ⊢
    simp [List.takeWhile_cons, hb, ih hbs]

theorem pack_fixed_name_of_le (name : List Nat) (hlen : name.length ≤ 32) :
    pack_fixed_name name = name ++ List.replicate (32 - name.length) 0 := by
  unfold pack_fixed_name NAME_LEN
  rw [List.take_of_length_le hlen]

theorem pack_fixed_name_length (name : List Nat) :
    (pack_fixed_name name).length = 32 := by
  unfold pack_fixed_name NAME_LEN
  rw [List.length_append, List.length_replicate]
  have h : (name.take 32).length ≤ 32 := List.length_take_le 32 name
  omega

theorem beToNat_pair (a b : Nat) : beToNat [a, b] = a * 256 + b := by
  simp [beToNat, List.foldl]

theorem beToNat_u16 (p : Nat) (hp : p ≤ 65535) : beToNat (u16_be p) = p := by
  unfold u16_be
  rw [beToNat_pair]
  omega

theorem card_value_eq_specCardScore (c : Card) (hc : 1 ≤ c.rank ∧ c.rank ≤ 13) :
    card_value c = specCardScore c := by
  unfold card_value specCardScore
  split_ifs <;> omega

/-- C2: the hand value is the plain sum over the cards of the spec's
per-card score (11 for rank 1, face value for ranks 2..10, 10 for ranks
11..13) with no re-scoring of aces; the hand [rank 1, rank 13] is worth 21,
the hand [10, 10, 5] is worth 25, and a hand is bust iff its value is
strictly greater than 21. -/
theorem C2_hand_value_rule :
    (∀ h : List Card, (∀ c ∈ h, 1 ≤ c.rank ∧ c.rank ≤ 13) →
      hand_value h = (h.map specCardScore).sum) ∧
    hand_value [Card.mk 1 Suit.H, Card.mk 13 Suit.S] = 21 ∧
    hand_value [Card.mk 10 Suit.H, Card.mk 10 Suit.S, Card.mk 5 Suit.D] = 25 ∧
    is_bust [Card.mk 10 Suit.H, Card.mk 10 Suit.S, Card.mk 5 Suit.D] = true ∧
    (∀ h : List Card, is_bust h = true ↔ 21 < hand_value h) := by
  refine ⟨?_, by decide, by decide, by decide, ?_⟩
  · intro h hvalid
    unfold hand_value
    have hmap : h.map card_value = h.map specCardScore :=
      List.map_congr_left (fun c hc => card_value_eq_specCardScore c (hvalid c hc))
    rw [hmap]
  · intro h
    simp [is_bust]

/-- Witness for C2 at a concrete valid hand. -/
theorem C2_hand_value_rule_witness :
    hand_value [Card.mk 1 Suit.H, Card.mk 7 Suit.D] =
      (([Card.mk 1 Suit.H, Card.mk 7 Suit.D]).map specCardScore).sum :=
  C2_hand_value_rule.1 [Card.mk 1 Suit.H, Card.mk 7 Suit.D] (by decide)

/-- C10: every card scores at least 2, hence the hand value strictly
increases under appending a card, hence a bust hand stays bust after any
further draw. -/
theorem C10_value_monotone :
    (∀ c : Card, 2 ≤ card_value c) ∧
    (∀ (h : List Card) (c : Card), hand_value h < hand_value (h ++ [c])) ∧
    (∀ (h : List Card) (c : Card), is_bust h = true → is_bust (h ++ [c]) = true) := by
  refine ⟨card_value_ge_two, ?_, ?_⟩
  · intro h c
    rw [hand_value_append]
    have := card_value_ge_two c
    omega
  · intro h c hb
    have h1 : 21 < hand_value h := by simpa [is_bust] using hb
    have h2 : hand_value h < hand_value (h ++ [c]) := by
      rw [hand_value_append]
      have := card_value_ge_two c
      omega
    simp [is_bust]
    omega

/-- Witness for C10 at a concrete bust hand. -/
theorem C10_value_monotone_witness :
    is_bust ([Card.mk 10 Suit.H, Card.mk 10 Suit.S, Card.mk 5 Suit.D] ++
      [Card.mk 2 Suit.C]) = true :=
  C10_value_monotone.2.2 [Card.mk 10 Suit.H, Card.mk 10 Suit.S, Card.mk 5 Suit.D]
    (Card.mk 2 Suit.C) (by decide)

/-- C5: the dealer hits iff the hand value is strictly below 17 (16 draws,
17 stands, regardless of composition), the dealer loop stops drawing as
soon as the value is at least 17, and while the value is below 17 each
drawn card is appended to the dealer hand and emitted as a NotOver Card
message. -/
theorem C5_dealer_policy :
    (∀ h : List Card, dealer_should_hit h = true ↔ hand_value h < 17) ∧
    (∀ h : List Card, hand_value h = 16 → dealer_should_hit h = true) ∧
    (∀ h : List Card, hand_value h = 17 → dealer_should_hit h = false) ∧
    (∀ (dealer deck : List Card), ¬ hand_value dealer < 17 →
      dealerLoop dealer deck = some (dealer, [], deck)) ∧
    (∀ (dealer : List Card) (c : Card) (rest : List Card), hand_value dealer < 17 →
      dealerLoop dealer (c :: rest) =
        (dealerLoop (dealer ++ [c]) rest).map
          (fun r => (r.1, Msg.mk RESULT_NOT_OVER c :: r.2.1, r.2.2))) := by
  refine ⟨?_, ?_, ?_, ?_, ?_⟩
  · intro h
    simp [dealer_should_hit]
  · intro h hv
    simp [dealer_should_hit, hv]
  · intro h hv
    simp [dealer_should_hit, hv]
  · intro dealer deck hv
    cases deck with
    | nil => simp [dealerLoop, dealer_should_hit, hv]
    | cons c rest => simp [dealerLoop, dealer_should_hit, hv]
  · intro dealer c rest hv
    simp [dealerLoop, dealer_should_hit, hv]

/-- Witness for C5 at hand values 16 and 17. -/
theorem C5_dealer_policy_witness :
    dealer_should_hit [Card.mk 10 Suit.H, Card.mk 6 Suit.S] = true ∧
    dealer_should_hit [Card.mk 10 Suit.H, Card.mk 7 Suit.S] = false ∧
    dealerLoop [Card.mk 10 Suit.H, Card.mk 7 Suit.S] [Card.mk 5 Suit.D] =
      some ([Card.mk 10 Suit.H, Card.mk 7 Suit.S], [], [Card.mk 5 Suit.D]) :=
  ⟨C5_dealer_policy.2.1 [Card.mk 10 Suit.H, Card.mk 6 Suit.S] (by decide),
   C5_dealer_policy.2.2.1 [Card.mk 10 Suit.H, Card.mk 7 Suit.S] (by decide),
   C5_dealer_policy.2.2.2.1 [Card.mk 10 Suit.H, Card.mk 7 Suit.S] [Card.mk 5 Suit.D]
     (by decide)⟩

theorem code_suit_roundtrip (s : Suit) : CODE_TO_SUIT (SUIT_TO_CODE s) = some s := by
  cases s <;> rfl

theorem beToNat_magic : beToNat [171, 205, 220, 186] = MAGIC_COOKIE := by decide

theorem parse_offer_eval (p1 p2 : Nat) (name_raw : List Nat)
    (hlen : name_raw.length = 32) :
    parse_offer (171 :: 205 :: 220 :: 186 :: 2 :: p1 :: p2 :: name_raw) =
      Except.ok (Offer.mk (beToNat [p1, p2]) (unpack_fixed_name name_raw)) := by
  have hl : (171 :: 205 :: 220 :: 186 :: 2 :: p1 :: p2 :: name_raw).length = OFFER_LEN := by
    simp [OFFER_LEN, NAME_LEN, hlen]
  unfold parse_offer
  rw [if_pos hl]
  simp [beToNat_magic, MAGIC_COOKIE, TYPE_OFFER, beToNat_pair]

theorem parse_request_eval (r : Nat) (name_raw : List Nat)
    (hlen : name_raw.length = 32) :
    parse_request (171 :: 205 :: 220 :: 186 :: 3 :: r :: name_raw) =
      Except.ok (Request.mk r (unpack_fixed_name name_raw)) := by
  have hl : (171 :: 205 :: 220 :: 186 :: 3 :: r :: name_raw).length = REQUEST_LEN := by
    simp [REQUEST_LEN, NAME_LEN, hlen]
  unfold parse_request
  rw [if_pos hl]
  simp [beToNat_magic, MAGIC_COOKIE, TYPE_REQUEST, beToNat_pair]

/-- C1 counterexample: the claim quantifies over every name string whose
encoding is at most 32 bytes, but a name consisting of a single zero byte
(Python "\x00", a valid one-character string with a 1-byte encoding) does
not survive the round trip: the parser decodes the name field only up to
the first zero byte, so it returns the empty name instead. -/
theorem C1_roundtrip_counterexample :
    build_offer 80 [0] =
      Except.ok (magicBytes ++ [TYPE_OFFER] ++ u16_be 80 ++ pack_fixed_name [0]) ∧
    parse_offer (magicBytes ++ [TYPE_OFFER] ++ u16_be 80 ++ pack_fixed_name [0]) =
      Except.ok (Offer.mk 80 []) ∧
    Offer.mk 80 ([] : List Nat) ≠ Offer.mk 80 [0] := by
  refine ⟨rfl, ?_, by decide⟩
  rw [show magicBytes ++ [TYPE_OFFER] ++ u16_be 80 ++ pack_fixed_name [0] =
        171 :: 205 :: 220 :: 186 :: 2 :: 0 :: 80 :: pack_fixed_name [0] from rfl]
  rw [parse_offer_eval 0 80 (pack_fixed_name [0]) (pack_fixed_name_length [0])]
  rfl

/-- C1 (amended): the round trip `parse(build(fields)) = fields` holds for
all four message types on all valid field values, provided the name
strings additionally contain no zero byte in their encoding (port in
uint16 range, round count in uint8 range, name encoding at most 32 bytes
with no zero byte, decision one of the two fixed 5-byte tokens, result
code in {0,1,2,3}, rank in [1,13], suit one of the four symbols). -/
theorem C1_roundtrip_amended :
    (∀ (port : Nat) (name : List Nat), port ≤ 65535 → name.length ≤ 32 →
      (∀ b ∈ name, b ≠ 0) →
      ∃ bs, build_offer port name = Except.ok bs ∧
        parse_offer bs = Except.ok (Offer.mk port name)) ∧
    (∀ (rounds : Nat) (name : List Nat), rounds ≤ 255 → name.length ≤ 32 →
      (∀ b ∈ name, b ≠ 0) →
      ∃ bs, build_request rounds name = Except.ok bs ∧
        parse_request bs = Except.ok (Request.mk rounds name)) ∧
    (∀ d : List Nat, d = HITTT_BYTES ∨ d = STAND_BYTES →
      ∃ bs, build_payload_client d = Except.ok bs ∧
        parse_payload_client bs = Except.ok (PayloadClient.mk d)) ∧
    (∀ (res rank : Nat) (suit : Suit), res ∈ VALID_RESULTS → 1 ≤ rank → rank ≤ 13 →
      ∃ bs, build_payload_server res rank suit = Except.ok bs ∧
        parse_payload_server bs = Except.ok (PayloadServer.mk res rank suit)) := by
  have hname : ∀ name : List Nat, name.length ≤ 32 → (∀ b ∈ name, b ≠ 0) →
      unpack_fixed_name (pack_fixed_name name) = name := by
    intro name hlen hz
    rw [pack_fixed_name_of_le name hlen]
    exact unpack_append_replicate name _ hz
  refine ⟨?_, ?_, ?_, ?_⟩
  · intro port name hp hlen hz
    refine ⟨magicBytes ++ [TYPE_OFFER] ++ u16_be port ++ pack_fixed_name name, ?_, ?_⟩
    · simp [build_offer, hp]
    · rw [show magicBytes ++ [TYPE_OFFER] ++ u16_be port ++ pack_fixed_name name =
            171 :: 205 :: 220 :: 186 :: 2 :: (port / 256 % 256) :: (port % 256) ::
              pack_fixed_name name from rfl]
      rw [parse_offer_eval _ _ _ (pack_fixed_name_length name)]
      rw [hname name hlen hz, beToNat_pair]
      have : port / 256 % 256 * 256 + port % 256 = port := by omega
      rw [this]
  · intro rounds name hr hlen hz
    refine ⟨magicBytes ++ [TYPE_REQUEST] ++ [rounds] ++ pack_fixed_name name, ?_, ?_⟩
    · simp [build_request, hr]
    · rw [show magicBytes ++ [TYPE_REQUEST] ++ [rounds] ++ pack_fixed_name name =
            171 :: 205 :: 220 :: 186 :: 3 :: rounds :: pack_fixed_name name from rfl]
      rw [parse_request_eval _ _ (pack_fixed_name_length name)]
      rw [hname name hlen hz]
  · intro d hd
    rcases hd with rfl | rfl
    · exact ⟨magicBytes ++ [TYPE_PAYLOAD] ++ HITTT_BYTES, rfl, rfl⟩
    · exact ⟨magicBytes ++ [TYPE_PAYLOAD] ++ STAND_BYTES, rfl, rfl⟩
  · intro res rank suit hres h1 h13
    refine ⟨magicBytes ++ [TYPE_PAYLOAD] ++ [res] ++ u16_be rank ++ [SUIT_TO_CODE suit],
            ?_, ?_⟩
    · simp [build_payload_server, hres, h1, h13]
    · have hrank : beToNat [rank / 256 % 256, rank % 256] = rank := by
        rw [beToNat_pair]
        omega
      have hl : (171 :: 205 :: 220 :: 186 :: 4 :: res :: (rank / 256 % 256) ::
          (rank % 256) :: [SUIT_TO_CODE suit]).length = PAYLOAD_SERVER_LEN := by
        simp [PAYLOAD_SERVER_LEN]
      rw [show magicBytes ++ [TYPE_PAYLOAD] ++ [res] ++ u16_be rank ++ [SUIT_TO_CODE suit] =
            171 :: 205 :: 220 :: 186 :: 4 :: res :: (rank / 256 % 256) ::
              (rank % 256) :: [SUIT_TO_CODE suit] from rfl]
      unfold parse_payload_server
      rw [if_pos hl]
      simp [beToNat_magic, MAGIC_COOKIE, TYPE_PAYLOAD, beToNat_pair, hres, code_suit_roundtrip]
      rw [show rank / 256 % 256 * 256 + rank % 256 = rank from by omega]
      simp [hres, h1, h13, code_suit_roundtrip]

/-- Witness for the amended C1 at concrete valid fields of each type. -/
theorem C1_roundtrip_amended_witness :
    (∃ bs, build_offer 8080 [66, 74] = Except.ok bs ∧
      parse_offer bs = Except.ok (Offer.mk 8080 [66, 74])) ∧
    (∃ bs, build_request 3 [77, 73] = Except.ok bs ∧
      parse_request bs = Except.ok (Request.mk 3 [77, 73])) ∧
    (∃ bs, build_payload_client HITTT_BYTES = Except.ok bs ∧
      parse_payload_client bs = Except.ok (PayloadClient.mk HITTT_BYTES)) ∧
    (∃ bs, build_payload_server RESULT_WIN 13 Suit.S = Except.ok bs ∧
      parse_payload_server bs = Except.ok (PayloadServer.mk RESULT_WIN 13 Suit.S)) :=
  ⟨C1_roundtrip_amended.1 8080 [66, 74] (by decide) (by decide) (by decide),
   C1_roundtrip_amended.2.1 3 [77, 73] (by decide) (by decide) (by decide),
   C1_roundtrip_amended.2.2.1 HITTT_BYTES (Or.inl rfl),
   C1_roundtrip_amended.2.2.2 RESULT_WIN 13 Suit.S (by decide) (by decide) (by decide)⟩

/-- C9: each parse function rejects every buffer whose length differs from
that message type's fixed length (39 for Advertisement/Offer, 38 for
Handshake Request, 10 for client Decision, 9 for server Card/Result). -/
theorem C9_length_rejection :
    OFFER_LEN = 39 ∧ REQUEST_LEN = 38 ∧ PAYLOAD_CLIENT_LEN = 10 ∧
    PAYLOAD_SERVER_LEN = 9 ∧
    (∀ data : List Nat,
      (data.length ≠ OFFER_LEN → ∃ e, parse_offer data = Except.error e) ∧
      (data.length ≠ REQUEST_LEN → ∃ e, parse_request data = Except.error e) ∧
      (data.length ≠ PAYLOAD_CLIENT_LEN → ∃ e, parse_payload_client data = Except.error e) ∧
      (data.length ≠ PAYLOAD_SERVER_LEN → ∃ e, parse_payload_server data = Except.error e)) := by
  refine ⟨rfl, rfl, rfl, rfl, ?_⟩
  intro data
  refine ⟨?_, ?_, ?_, ?_⟩
  · intro h
    unfold parse_offer
    rw [if_neg h]
    exact ⟨_, rfl⟩
  · intro h
    unfold parse_request
    rw [if_neg h]
    exact ⟨_, rfl⟩
  · intro h
    unfold parse_payload_client
    rw [if_neg h]
    exact ⟨_, rfl⟩
  · intro h
    unfold parse_payload_server
    rw [if_neg h]
    exact ⟨_, rfl⟩

/-- Witness for C9 on concrete too-short and too-long buffers. -/
theorem C9_length_rejection_witness :
    (∃ e, parse_offer [] = Except.error e) ∧
    (∃ e, parse_payload_server (List.replicate 10 0) = Except.error e) :=
  ⟨((C9_length_rejection.2.2.2.2 []).1 (by decide)),
   ((C9_length_rejection.2.2.2.2 (List.replicate 10 0)).2.2.2 (by decide))⟩

-- Structure lemmas about the engine loops.

theorem playerLoop_bust_shape :
    ∀ (ds : List Decision) (player deck : List Card) (lastSent : Card) (pmsgs : List Msg),
    playerLoop player ds deck lastSent = some (pmsgs, none) →
    ∃ pre c, pmsgs = pre ++ [Msg.mk RESULT_NOT_OVER c, Msg.mk RESULT_LOSS c] ∧
      ∀ m ∈ pre, m.result = RESULT_NOT_OVER := by
  intro ds
  induction ds with
  | nil =>
    intro player deck lastSent pmsgs h
    simp [playerLoop] at h
  | cons d ds ih =>
    intro player deck lastSent pmsgs h
    cases d with
    | stand => simp [playerLoop] at h
    | hittt =>
      cases deck with
      | nil => simp [playerLoop] at h
      | cons c rest =>
        simp only [playerLoop] at h
        by_cases hb : is_bust (player ++ [c]) = true
        · rw [if_pos hb] at h
          have hp : pmsgs = [Msg.mk RESULT_NOT_OVER c, Msg.mk RESULT_LOSS c] := by
            have := congrArg Prod.fst (Option.some.inj h)
            simpa using this.symm
          exact ⟨[], c, by simp [hp], by simp⟩
        · rw [if_neg hb] at h
          rcases Option.map_eq_some'.mp h with ⟨⟨ms, k⟩, hrec, heq⟩
          have hk : k = none := by
            have := congrArg Prod.snd heq
            simpa using this
          have hmsgs : pmsgs = Msg.mk RESULT_NOT_OVER c :: ms := by
            have := congrArg Prod.fst heq
            simpa using this.symm
          subst hk
          rcases ih (player ++ [c]) rest c ms hrec with ⟨pre, c2, hshape, hpre⟩
          refine ⟨Msg.mk RESULT_NOT_OVER c :: pre, c2, ?_, ?_⟩
          · simp [hmsgs, hshape]
          · intro m hm
            rcases List.mem_cons.mp hm with rfl | hm2
            · rfl
            · exact hpre m hm2

theorem playerLoop_cards_from_deck :
    ∀ (ds : List Decision) (player deck : List Card) (lastSent : Card)
      (pmsgs : List Msg) (k : Option (List Card × List Card × Card)),
    playerLoop player ds deck lastSent = some (pmsgs, k) →
    ∀ m ∈ pmsgs, m.card ∈ deck := by
  intro ds
  induction ds with
  | nil =>
    intro player deck lastSent pmsgs k h
    simp [playerLoop] at h
  | cons d ds ih =>
    intro player deck lastSent pmsgs k h
    cases d with
    | stand =>
      simp only [playerLoop, Option.some.injEq] at h
      have : pmsgs = [] := by
        have := congrArg Prod.fst h
        simpa using this.symm
      simp [this]
    | hittt =>
      cases deck with
      | nil => simp [playerLoop] at h
      | cons c rest =>
        simp only [playerLoop] at h
        by_cases hb : is_bust (player ++ [c]) = true
        · rw [if_pos hb] at h
          have : pmsgs = [Msg.mk RESULT_NOT_OVER c, Msg.mk RESULT_LOSS c] := by
            have := congrArg Prod.fst (Option.some.inj h)
            simpa using this.symm
          intro m hm
          rw [this] at hm
          have hm2 : m = Msg.mk RESULT_NOT_OVER c ∨ m = Msg.mk RESULT_LOSS c := by
            simpa using hm
          rcases hm2 with rfl | rfl <;> simp
        · rw [if_neg hb] at h
          rcases Option.map_eq_some'.mp h with ⟨⟨ms, k2⟩, hrec, heq⟩
          have hmsgs : pmsgs = Msg.mk RESULT_NOT_OVER c :: ms := by
            have := congrArg Prod.fst heq
            simpa using this.symm
          intro m hm
          rw [hmsgs] at hm
          rcases List.mem_cons.mp hm with rfl | hm2
          · simp
          · exact List.mem_cons_of_mem c (ih (player ++ [c]) rest c ms k2 hrec m hm2)

theorem dealerLoop_results_not_over :
    ∀ (deck dealer dealer2 : List Card) (dmsgs : List Msg) (rem : List Card),
    dealerLoop dealer deck = some (dealer2, dmsgs, rem) →
    ∀ m ∈ dmsgs, m.result = RESULT_NOT_OVER := by
  intro deck
  induction deck with
  | nil =>
    intro dealer dealer2 dmsgs rem h
    simp only [dealerLoop] at h
    by_cases hh : dealer_should_hit dealer = true
    · rw [if_pos hh] at h
      exact absurd h (by simp)
    · rw [if_neg hh] at h
      have : dmsgs = [] := by
        have := congrArg (fun p => p.2.1) (Option.some.inj h)
        simpa using this.symm
      simp [this]
  | cons c rest ih =>
    intro dealer dealer2 dmsgs rem h
    simp only [dealerLoop] at h
    by_cases hh : dealer_should_hit dealer = true
    · rw [if_pos hh] at h
      rcases Option.map_eq_some'.mp h with ⟨⟨d2x, ms, rm⟩, hrec, heq⟩
      have hmsgs : dmsgs = Msg.mk RESULT_NOT_OVER c :: ms := by
        have := congrArg (fun p => p.2.1) heq
        simpa using this.symm
      intro m hm
      rw [hmsgs] at hm
      rcases List.mem_cons.mp hm with rfl | hm2
      · rfl
      · exact ih (dealer ++ [c]) d2x ms rm hrec m hm2
    · rw [if_neg hh] at h
      have : dmsgs = [] := by
        have := congrArg (fun p => p.2.1) (Option.some.inj h)
        simpa using this.symm
      simp [this]

theorem append_last_pair {α : Type} (pre L : List α) (hL : L ≠ []) (x : α) :
    pre ++ L ++ [x] = (pre ++ L.dropLast) ++ [L.getLast hL, x] := by
  conv_lhs => rw [← List.dropLast_append_getLast hL]
  simp [List.append_assoc]

/-- C4: whenever a Hit decision draws a card that busts the player's hand,
the emitted message sequence ends with that card as a NotOver Card message
followed immediately by exactly one terminal message with resultCode=Loss
carrying the same card (all earlier player-turn messages are NotOver), the
round result is Loss, and the dealer's hidden second card is never sent in
that round (given that the deck holds distinct cards). -/
theorem C4_player_bust_shortcut :
    ∀ (p1 p2 d1 d2 : Card) (rest : List Card) (ds : List Decision) (pmsgs : List Msg),
    playerLoop [p1, p2] ds rest d1 = some (pmsgs, none) →
    (∃ pre c, pmsgs = pre ++ [Msg.mk RESULT_NOT_OVER c, Msg.mk RESULT_LOSS c] ∧
      ∀ m ∈ pre, m.result = RESULT_NOT_OVER) ∧
    play_one_round (p1 :: p2 :: d1 :: d2 :: rest) ds =
      some ([Msg.mk RESULT_NOT_OVER p1, Msg.mk RESULT_NOT_OVER p2,
             Msg.mk RESULT_NOT_OVER d1] ++ pmsgs, RESULT_LOSS) ∧
    (d2 ∉ rest → d2 ≠ p1 → d2 ≠ p2 → d2 ≠ d1 →
      ∀ m ∈ ([Msg.mk RESULT_NOT_OVER p1, Msg.mk RESULT_NOT_OVER p2,
              Msg.mk RESULT_NOT_OVER d1] ++ pmsgs), m.card ≠ d2) := by
  intro p1 p2 d1 d2 rest ds pmsgs h
  refine ⟨playerLoop_bust_shape ds [p1, p2] rest d1 pmsgs h, ?_, ?_⟩
  · simp [play_one_round, h]
  · intro hrest hp1 hp2 hd1 m hm
    rcases List.mem_append.mp hm with hm | hm
    · have hm3 : m = Msg.mk RESULT_NOT_OVER p1 ∨ m = Msg.mk RESULT_NOT_OVER p2 ∨
          m = Msg.mk RESULT_NOT_OVER d1 := by
        simpa using hm
      rcases hm3 with rfl | rfl | rfl
      · exact fun hc => hp1 hc.symm
      · exact fun hc => hp2 hc.symm
      · exact fun hc => hd1 hc.symm
    · have hc := playerLoop_cards_from_deck ds [p1, p2] rest d1 pmsgs none h m hm
      intro he
      rw [he] at hc
      exact hrest hc

/-- Witness for C4: the player holds 10+10, hits into a 5 (total 25), and
the round ends at once with Loss, the hidden card 7C never sent. -/
theorem C4_player_bust_shortcut_witness :
    play_one_round [Card.mk 10 Suit.H, Card.mk 10 Suit.S, Card.mk 6 Suit.C,
        Card.mk 7 Suit.C, Card.mk 5 Suit.D] [Decision.hittt] =
      some ([Msg.mk RESULT_NOT_OVER (Card.mk 10 Suit.H),
             Msg.mk RESULT_NOT_OVER (Card.mk 10 Suit.S),
             Msg.mk RESULT_NOT_OVER (Card.mk 6 Suit.C)] ++
            [Msg.mk RESULT_NOT_OVER (Card.mk 5 Suit.D),
             Msg.mk RESULT_LOSS (Card.mk 5 Suit.D)], RESULT_LOSS) :=
  (C4_player_bust_shortcut (Card.mk 10 Suit.H) (Card.mk 10 Suit.S) (Card.mk 6 Suit.C)
    (Card.mk 7 Suit.C) [Card.mk 5 Suit.D] [Decision.hittt]
    [Msg.mk RESULT_NOT_OVER (Card.mk 5 Suit.D), Msg.mk RESULT_LOSS (Card.mk 5 Suit.D)]
    rfl).2.1

/-- C6: every completed round's message sequence ends with a NotOver Card
message followed by the terminal Card/Result message, and the terminal
message carries the result code and the rank/suit of that most recently
sent card (on both the player-bust path and the normal resolution path);
by construction every Card/Result message carries a card field. -/
theorem C6_last_sent_invariant :
    ∀ (deck : List Card) (ds : List Decision) (msgs : List Msg) (r : Nat),
    play_one_round deck ds = some (msgs, r) →
    ∃ pre c, msgs = pre ++ [Msg.mk RESULT_NOT_OVER c, Msg.mk r c] := by
  intro deck ds msgs r h
  rcases deck with _ | ⟨p1, _ | ⟨p2, _ | ⟨d1, _ | ⟨d2, rest⟩⟩⟩⟩
  · simp [play_one_round] at h
  · simp [play_one_round] at h
  · simp [play_one_round] at h
  · simp [play_one_round] at h
  cases hp : playerLoop [p1, p2] ds rest d1 with
  | none =>
    have heval : play_one_round (p1 :: p2 :: d1 :: d2 :: rest) ds = none := by
      simp [play_one_round, hp]
    rw [heval] at h
    exact absurd h (by simp)
  | some pr =>
    obtain ⟨pmsgs, k⟩ := pr
    cases k with
    | none =>
      have heval : play_one_round (p1 :: p2 :: d1 :: d2 :: rest) ds =
          some ([Msg.mk RESULT_NOT_OVER p1, Msg.mk RESULT_NOT_OVER p2,
                 Msg.mk RESULT_NOT_OVER d1] ++ pmsgs, RESULT_LOSS) := by
        simp [play_one_round, hp]
      rw [heval] at h
      simp only [Option.some.injEq, Prod.mk.injEq] at h
      obtain ⟨hm, hr⟩ := h
      subst hm
      subst hr
      rcases playerLoop_bust_shape ds [p1, p2] rest d1 pmsgs hp with ⟨pre, c, hshape, _⟩
      refine ⟨[Msg.mk RESULT_NOT_OVER p1, Msg.mk RESULT_NOT_OVER p2,
               Msg.mk RESULT_NOT_OVER d1] ++ pre, c, ?_⟩
      rw [hshape]
      simp [List.append_assoc]
    | some st =>
      obtain ⟨player, deck2, lastp⟩ := st
      cases hd : dealerLoop [d1, d2] deck2 with
      | none =>
        have heval : play_one_round (p1 :: p2 :: d1 :: d2 :: rest) ds = none := by
          simp [play_one_round, hp, hd]
        rw [heval] at h
        exact absurd h (by simp)
      | some dr =>
        obtain ⟨dealer, dmsgs, rem⟩ := dr
        have heval : play_one_round (p1 :: p2 :: d1 :: d2 :: rest) ds =
            some ([Msg.mk RESULT_NOT_OVER p1, Msg.mk RESULT_NOT_OVER p2,
                   Msg.mk RESULT_NOT_OVER d1] ++ pmsgs ++
                  (Msg.mk RESULT_NOT_OVER d2 :: dmsgs) ++
                  [Msg.mk (round_result player dealer)
                    ((dmsgs.getLastD (Msg.mk RESULT_NOT_OVER d2)).card)],
              round_result player dealer) := by
          simp [play_one_round, hp, hd]
        rw [heval] at h
        simp only [Option.some.injEq, Prod.mk.injEq] at h
        obtain ⟨hm, hr⟩ := h
        subst hm
        subst hr
        have hL : (Msg.mk RESULT_NOT_OVER d2 :: dmsgs) ≠ [] := by simp
        have hglast : (Msg.mk RESULT_NOT_OVER d2 :: dmsgs).getLast hL =
            dmsgs.getLastD (Msg.mk RESULT_NOT_OVER d2) :=
          List.getLast_eq_getLastD _ _ _
        have hres0 : ((Msg.mk RESULT_NOT_OVER d2 :: dmsgs).getLast hL).result =
            RESULT_NOT_OVER := by
          rcases List.mem_cons.mp (List.getLast_mem hL) with he | he
          · rw [he]
          · exact dealerLoop_results_not_over deck2 [d1, d2] dealer dmsgs rem hd _ he
        have heta : (Msg.mk RESULT_NOT_OVER d2 :: dmsgs).getLast hL =
            Msg.mk RESULT_NOT_OVER
              (((Msg.mk RESULT_NOT_OVER d2 :: dmsgs).getLast hL).card) := by
          have h1 : Msg.mk (((Msg.mk RESULT_NOT_OVER d2 :: dmsgs).getLast hL).result)
              (((Msg.mk RESULT_NOT_OVER d2 :: dmsgs).getLast hL).card) =
              (Msg.mk RESULT_NOT_OVER d2 :: dmsgs).getLast hL := rfl
          rw [hres0] at h1
          exact h1.symm
        have hlc : (dmsgs.getLastD (Msg.mk RESULT_NOT_OVER d2)).card =
            ((Msg.mk RESULT_NOT_OVER d2 :: dmsgs).getLast hL).card := by
          rw [hglast]
        refine ⟨([Msg.mk RESULT_NOT_OVER p1, Msg.mk RESULT_NOT_OVER p2,
                  Msg.mk RESULT_NOT_OVER d1] ++ pmsgs) ++
                 (Msg.mk RESULT_NOT_OVER d2 :: dmsgs).dropLast,
                ((Msg.mk RESULT_NOT_OVER d2 :: dmsgs).getLast hL).card, ?_⟩
        rw [append_last_pair ([Msg.mk RESULT_NOT_OVER p1, Msg.mk RESULT_NOT_OVER p2,
              Msg.mk RESULT_NOT_OVER d1] ++ pmsgs)
              (Msg.mk RESULT_NOT_OVER d2 :: dmsgs) hL
              (Msg.mk (round_result player dealer)
                ((dmsgs.getLastD (Msg.mk RESULT_NOT_OVER d2)).card)), hlc, ← heta]

/-- Witness for C6: a complete stand round where the dealer draws once; the
terminal Win message carries the dealer's last drawn card. -/
theorem C6_last_sent_invariant_witness :
    ∃ pre c,
      [Msg.mk RESULT_NOT_OVER (Card.mk 9 Suit.H), Msg.mk RESULT_NOT_OVER (Card.mk 10 Suit.S),
       Msg.mk RESULT_NOT_OVER (Card.mk 6 Suit.D), Msg.mk RESULT_NOT_OVER (Card.mk 7 Suit.C),
       Msg.mk RESULT_NOT_OVER (Card.mk 5 Suit.H), Msg.mk RESULT_WIN (Card.mk 5 Suit.H)] =
        pre ++ [Msg.mk RESULT_NOT_OVER c, Msg.mk RESULT_WIN c] :=
  C6_last_sent_invariant
    [Card.mk 9 Suit.H, Card.mk 10 Suit.S, Card.mk 6 Suit.D, Card.mk 7 Suit.C,
     Card.mk 5 Suit.H] [Decision.stand]
    [Msg.mk RESULT_NOT_OVER (Card.mk 9 Suit.H), Msg.mk RESULT_NOT_OVER (Card.mk 10 Suit.S),
     Msg.mk RESULT_NOT_OVER (Card.mk 6 Suit.D), Msg.mk RESULT_NOT_OVER (Card.mk 7 Suit.C),
     Msg.mk RESULT_NOT_OVER (Card.mk 5 Suit.H), Msg.mk RESULT_WIN (Card.mk 5 Suit.H)]
    RESULT_WIN rfl

/-- C3: at round resolution after the dealer's turn, the computed outcome
is Win when the dealer is bust or the player's total strictly exceeds the
dealer's, Loss when the dealer is not bust and the player's total is
strictly smaller, Tie when the dealer is not bust and the totals are
equal; and on the stand path the round ends with exactly this outcome. -/
theorem C3_result_computation :
    (∀ player dealer : List Card,
      (is_bust dealer = true ∨ hand_value player > hand_value dealer →
        round_result player dealer = RESULT_WIN) ∧
      (is_bust dealer = false → hand_value player < hand_value dealer →
        round_result player dealer = RESULT_LOSS) ∧
      (is_bust dealer = false → hand_value player = hand_value dealer →
        round_result player dealer = RESULT_TIE)) ∧
    (∀ (p1 p2 d1 d2 : Card) (rest : List Card) (ds : List Decision)
       (pmsgs : List Msg) (player deck2 : List Card) (lastp : Card)
       (dealer : List Card) (dmsgs : List Msg) (rem : List Card),
      playerLoop [p1, p2] ds rest d1 = some (pmsgs, some (player, deck2, lastp)) →
      dealerLoop [d1, d2] deck2 = some (dealer, dmsgs, rem) →
      ∃ msgs, play_one_round (p1 :: p2 :: d1 :: d2 :: rest) ds =
        some (msgs, round_result player dealer)) := by
  constructor
  · intro player dealer
    refine ⟨?_, ?_, ?_⟩
    · intro h
      unfold round_result
      rw [if_pos h]
    · intro hnb hlt
      unfold round_result
      have hc : ¬ (is_bust dealer = true ∨ hand_value player > hand_value dealer) := by
        rintro (hb | hgt)
        · simp [hnb] at hb
        · omega
      rw [if_neg hc, if_pos hlt]
    · intro hnb heq
      unfold round_result
      have hc : ¬ (is_bust dealer = true ∨ hand_value player > hand_value dealer) := by
        rintro (hb | hgt)
        · simp [hnb] at hb
        · omega
      rw [if_neg hc, if_neg (by omega)]
  · intro p1 p2 d1 d2 rest ds pmsgs player deck2 lastp dealer dmsgs rem hp hd
    refine ⟨[Msg.mk RESULT_NOT_OVER p1, Msg.mk RESULT_NOT_OVER p2,
             Msg.mk RESULT_NOT_OVER d1] ++ pmsgs ++
            (Msg.mk RESULT_NOT_OVER d2 :: dmsgs) ++
            [Msg.mk (round_result player dealer)
              ((dmsgs.getLastD (Msg.mk RESULT_NOT_OVER d2)).card)], ?_⟩
    simp [play_one_round, hp, hd]

/-- Witness for C3 at concrete hands on all three branches and a concrete
stand-path round. -/
theorem C3_result_computation_witness :
    round_result [Card.mk 10 Suit.H, Card.mk 9 Suit.S]
      [Card.mk 6 Suit.D, Card.mk 7 Suit.C, Card.mk 5 Suit.H] = RESULT_WIN ∧
    round_result [Card.mk 10 Suit.H, Card.mk 7 Suit.S]
      [Card.mk 10 Suit.D, Card.mk 8 Suit.C] = RESULT_LOSS ∧
    round_result [Card.mk 10 Suit.H, Card.mk 8 Suit.S]
      [Card.mk 10 Suit.D, Card.mk 8 Suit.C] = RESULT_TIE ∧
    ∃ msgs,
      play_one_round [Card.mk 9 Suit.H, Card.mk 10 Suit.S, Card.mk 6 Suit.D,
          Card.mk 7 Suit.C, Card.mk 5 Suit.H] [Decision.stand] =
        some (msgs, round_result [Card.mk 9 Suit.H, Card.mk 10 Suit.S]
          [Card.mk 6 Suit.D, Card.mk 7 Suit.C, Card.mk 5 Suit.H]) :=
  ⟨((C3_result_computation.1 [Card.mk 10 Suit.H, Card.mk 9 Suit.S]
      [Card.mk 6 Suit.D, Card.mk 7 Suit.C, Card.mk 5 Suit.H]).1 (by right; decide)),
   ((C3_result_computation.1 [Card.mk 10 Suit.H, Card.mk 7 Suit.S]
      [Card.mk 10 Suit.D, Card.mk 8 Suit.C]).2.1 (by decide) (by decide)),
   ((C3_result_computation.1 [Card.mk 10 Suit.H, Card.mk 8 Suit.S]
      [Card.mk 10 Suit.D, Card.mk 8 Suit.C]).2.2 (by decide) (by decide)),
   C3_result_computation.2 (Card.mk 9 Suit.H) (Card.mk 10 Suit.S) (Card.mk 6 Suit.D)
     (Card.mk 7 Suit.C) [Card.mk 5 Suit.H] [Decision.stand] []
     [Card.mk 9 Suit.H, Card.mk 10 Suit.S] [Card.mk 5 Suit.H] (Card.mk 6 Suit.D)
     [Card.mk 6 Suit.D, Card.mk 7 Suit.C, Card.mk 5 Suit.H] [Msg.mk RESULT_NOT_OVER (Card.mk 5 Suit.H)]
     [] rfl rfl⟩

/-- C7 counterexample: the claim says at least one Decision is sent for
every initial hand, but the client driver checks bust before prompting; on
the initial hand [Ace, Ace] (value 22 under this scoring) it leaves the
player-turn loop having sent zero decisions even though the input
collaborator has a decision ready. -/
theorem C7_counterexample :
    clientPlayerTurn [Card.mk 1 Suit.H, Card.mk 1 Suit.S] [Decision.stand] [] =
      some [] ∧
    ¬ 1 ≤ ([] : List Decision).length :=
  ⟨rfl, by decide⟩

/-- C7 (amended): for every initial hand that is not bust, the client
driver sends at least one Decision message in the round, and the first
decision sent is the first decision obtained from the external input
collaborator, before any further Card message is consumed. -/
theorem C7_decision_before_read :
    ∀ (player : List Card) (inputs : List Decision) (srv : List Msg)
      (ds : List Decision),
    is_bust player = false →
    clientPlayerTurn player inputs srv = some ds →
    1 ≤ ds.length ∧ ds.head? = inputs.head? := by
  intro player inputs srv ds hb h
  unfold clientPlayerTurn at h
  rw [if_neg (by simp [hb])] at h
  cases inputs with
  | nil =>
    have h2 : (none : Option (List Decision)) = some ds := h
    simp at h2
  | cons d ds2 =>
    cases d with
    | stand =>
      have h2 : some [Decision.stand] = some ds := h
      have hds : ds = [Decision.stand] := (Option.some.inj h2).symm
      subst hds
      exact ⟨by simp, by simp⟩
    | hittt =>
      cases srv with
      | nil =>
        have h2 : (none : Option (List Decision)) = some ds := h
        simp at h2
      | cons m ms =>
        have h2 : (if m.result = RESULT_NOT_OVER then
            Option.map (fun l => Decision.hittt :: l)
              (clientPlayerTurn (player ++ [m.card]) ds2 ms)
          else some [Decision.hittt]) = some ds := h
        by_cases hm : m.result = RESULT_NOT_OVER
        · rw [if_pos hm] at h2
          rcases Option.map_eq_some'.mp h2 with ⟨l, _, hds⟩
          rw [← hds]
          exact ⟨by simp, by simp⟩
        · rw [if_neg hm] at h2
          have hds : ds = [Decision.hittt] := (Option.some.inj h2).symm
          subst hds
          exact ⟨by simp, by simp⟩

/-- Witness for the amended C7 at a concrete non-bust hand. -/
theorem C7_decision_before_read_witness :
    1 ≤ ([Decision.stand] : List Decision).length ∧
    ([Decision.stand] : List Decision).head? =
      ([Decision.stand] : List Decision).head? :=
  C7_decision_before_read [Card.mk 10 Suit.H, Card.mk 9 Suit.S] [Decision.stand] []
    [Decision.stand] (by decide) rfl

end Blackjack
